import Mathlib

/-!
Shallow embedding of `src/scale_builder.py` (Musical-Scale-Builder).

Python strings are modelled as `List Char`; Python's `None`-returning /
exception-raising paths are modelled with `Option`.  The two static
reference tables of the `definitions` module (`definitions.majors` and
`definitions.mode_definitions`) are not part of the source tree; the code
functions therefore take them as explicit association-list parameters, and
the concrete entries used by witnesses are modelled from the spec and the
repository's tests.
-/

set_option autoImplicit false

namespace ScaleBuilder

/-- Convert a string literal to the `List Char` representation used throughout. -/
def str (s : String) : List Char := s.data

/-- The whitespace class used by Python's `str.split()` and by the regex class
`\s` (space, tab, newline, carriage return, vertical tab, form feed). -/
def isSpaceChar (c : Char) : Bool :=
  c = ' ' || c = '\t' || c = '\n' || c = '\r' || c = Char.ofNat 11 || c = Char.ofNat 12

/-- Helper of `splitWS`: accumulates the current word (reversed). -/
def splitWSAux : List Char → List Char → List (List Char)
  | [], cur => if cur = [] then [] else [cur.reverse]
  | c :: rest, cur =>
    if isSpaceChar c then
      if cur = [] then splitWSAux rest [] else cur.reverse :: splitWSAux rest []
    else splitWSAux rest (c :: cur)

/-- Python `str.split()` with no argument: split on runs of whitespace,
discarding empty words (so leading/trailing whitespace is stripped). -/
def splitWS (l : List Char) : List (List Char) := splitWSAux l []

/-- Line 111 of `scale_builder.py`: `user_input = ' '.join(user_input.split())`. -/
def normalize_ws (l : List Char) : List Char := List.intercalate [' '] (splitWS l)

/-- Python `s.strip()`: remove leading and trailing whitespace. -/
def pyStrip (l : List Char) : List Char :=
  ((l.dropWhile isSpaceChar).reverse.dropWhile isSpaceChar).reverse

/-- Substring test, Python's `needle in haystack` for strings. -/
def containsSub (p : List Char) : List Char → Bool
  | [] => p.isEmpty
  | c :: rest => p.isPrefixOf (c :: rest) || containsSub p rest

/-- Helper of `countOcc`.  The `Nat` argument is the number of positions still
covered by the previous match, in which no new match may start (Python's
`str.count` counts non-overlapping occurrences, scanning left to right). -/
def countOccAux (p : List Char) : List Char → Nat → Nat
  | [], _ => 0
  | c :: rest, 0 =>
    if p.isPrefixOf (c :: rest) then 1 + countOccAux p rest (p.length - 1)
    else countOccAux p rest 0
  | _ :: rest, k + 1 => countOccAux p rest k

/-- Python `haystack.count(p)` for a non-empty pattern `p`: the number of
non-overlapping occurrences of `p`, scanning left to right.  (For the empty
pattern Python returns `len + 1`; the callers only use non-empty patterns.) -/
def countOcc (p l : List Char) : Nat :=
  if p = [] then l.length + 1 else countOccAux p l 0

/-- Helper of `replaceOcc`; the `Nat` argument works as in `countOccAux`. -/
def replaceOccAux (p r : List Char) : List Char → Nat → List Char
  | [], _ => []
  | c :: rest, 0 =>
    if p ≠ [] ∧ p.isPrefixOf (c :: rest) = true then
      r ++ replaceOccAux p r rest (p.length - 1)
    else c :: replaceOccAux p r rest 0
  | _ :: rest, k + 1 => replaceOccAux p r rest k

/-- Python `re.sub(p, r, l)` for a literal non-empty pattern `p`: replace every
non-overlapping occurrence of `p` in `l` by `r`, scanning left to right. -/
def replaceOcc (p r l : List Char) : List Char := replaceOccAux p r l 0

/-- Python index access `l[i]` with Python's negative-index semantics;
`none` models an `IndexError`. -/
def pyIndex {α : Type} (l : List α) (i : Int) : Option α :=
  if 0 ≤ i then l.get? i.toNat
  else if 0 ≤ (l.length : Int) + i then l.get? ((l.length : Int) + i).toNat
  else none

/-- Python `int(c)` for a single character: its numeric value if `c` is a
decimal digit, `none` (a `ValueError`) otherwise. -/
def charDigitVal (c : Char) : Option Int :=
  if '0' ≤ c ∧ c ≤ '9' then some ((c.toNat : Int) - 48) else none

/-- `raise_note` (lines 232-253): raise the note by `num_semitones` semitones.
Each step: if the note contains a lower mark, trim the last character;
otherwise append a raise mark. -/
def raise_note (note : List Char) : Nat → List Char
  | 0 => note
  | n + 1 =>
    raise_note (if note.contains '-' then note.dropLast else note ++ ['+']) n

/-- `lower_note` (lines 256-277): lower the note by `num_semitones` semitones.
Each step: if the note contains a raise mark, trim the last character;
otherwise append a lower mark. -/
def lower_note (note : List Char) : Nat → List Char
  | 0 => note
  | n + 1 =>
    lower_note (if note.contains '+' then note.dropLast else note ++ ['-']) n

/-- `modify_note` (lines 208-229): apply a modifier such as `"+"`, `"--"`,
or `none`, raising or lowering by the modifier's length. -/
def modify_note (note : List Char) (modifier : Option (List Char)) : List Char :=
  match modifier with
  | none => note
  | some m =>
    if m.contains '+' then raise_note note m.length
    else if m.contains '-' then lower_note note m.length
    else []

/-- The per-note body of the loop in `prep_scale_for_display` (lines 294-302):
uppercase the note, then substitute every lower mark by `b`, or else every
raise mark by `#` (the second branch tests the original note, as the source
does). -/
def prep_note (note : List Char) : List Char :=
  let new_note := note.map Char.toUpper
  if new_note.contains '-' then replaceOcc ['-'] ['b'] new_note
  else if note.contains '+' then replaceOcc ['+'] ['#'] new_note
  else new_note

/-- `prep_scale_for_display` (lines 280-307): format each note, append
`", "` to each, join, and cut the trailing two characters. -/
def prep_scale_for_display (scale : List (List Char)) : List Char :=
  let joined := (scale.map (fun note => prep_note note ++ [',', ' '])).flatten
  joined.take (joined.length - 2)

/-- A reference table (`definitions.majors` or `definitions.mode_definitions`)
modelled as an association list from a key string to a list of strings,
mirroring a read-only Python dict. -/
def Table : Type := List (List Char × List (List Char))

/-- One iteration of the loop at lines 181-195 of `create_scale`: from a mode
definition entry such as `"3-"`, take its degree digit, index into the major
scale (1-based degree, so position `degree - 1`), and apply the trailing
modifier, if any, via `modify_note`.  `none` models the exceptions Python
would raise (`IndexError`, `ValueError`). -/
def derive_entry (major_scale : List (List Char)) (dm : List Char) :
    Option (List Char) :=
  match dm.head? with
  | none => none
  | some d0 =>
    match charDigitVal d0 with
    | none => none
    | some dv =>
      match pyIndex major_scale (dv - 1) with
      | none => none
      | some note =>
        some (modify_note note (if dm.length > 1 then some (dm.drop 1) else none))

/-- Run `f` over a list, propagating the first failure — the Python `for`
loop over `mode_definition`, where any exception aborts the computation. -/
def mapOpt {α β : Type} (f : α → Option β) : List α → Option (List β)
  | [] => some []
  | a :: l =>
    match f a, mapOpt f l with
    | some b, some bs => some (b :: bs)
    | _, _ => none

/-- Lines 168-199 of `create_scale`: build the internal note list.  The full
root is the concatenation of `scale_elements[:2]`; the mode definition and the
major scale are fetched from the two tables; each definition entry yields one
note; finally the first note is appended again (octave closure,
`scale.append(scale[0])` — an `IndexError`, hence `none`, on an empty scale). -/
def build_scale (majors mode_definitions : Table)
    (scale_elements : List (List Char)) : Option (List (List Char)) :=
  (scale_elements.get? 2).bind fun mode =>
    (List.lookup mode mode_definitions).bind fun md =>
      (List.lookup ((scale_elements.take 2).flatten) majors).bind fun major_scale =>
        (mapOpt (derive_entry major_scale) md).bind fun scale =>
          scale.head?.bind fun first => some (scale ++ [first])

/-- `create_scale` (lines 154-205): build the internal note list and format it
for display. -/
def create_scale (majors mode_definitions : Table)
    (scale_elements : List (List Char)) : Option (List Char) :=
  (build_scale majors mode_definitions scale_elements).map prep_scale_for_display

/-- Line 114: `re.match('([a-g])\\s', user_input[:2])` — the first character
is a letter `a`-`g` and the second matches `\s`. -/
def rootPatternOk : List Char → Bool
  | c1 :: c2 :: _ => ('a' ≤ c1 && c1 ≤ 'g') && isSpaceChar c2
  | _ => false

/-- Lines 122-126: the ambiguous-accidental rejection — more than one
`"sharp"`, more than one `"flat"`, or an adjacent `"sharp flat"` /
`"flat sharp"`. -/
def dupModifier (ui : List Char) : Bool :=
  decide (1 < countOcc (str "sharp") ui) || decide (1 < countOcc (str "flat") ui)
    || decide (0 < countOcc (str "sharp flat") ui)
    || decide (0 < countOcc (str "flat sharp") ui)

/-- Lines 129-134: the modifier extracted from the remainder after the root —
`'+'` for a leading `"sharp"`, `'-'` for a leading `"flat"`, else empty. -/
def extract_modifier (ui : List Char) : List Char :=
  let rest := ui.drop 2
  if (str "sharp").isPrefixOf rest then ['+']
  else if (str "flat").isPrefixOf rest then ['-']
  else []

/-- Lines 129-139: the mode text before the minor-disambiguation — strip a
leading accidental word (via `re.sub`, i.e. removing every occurrence) and
trim surrounding whitespace. -/
def extract_mode_pre (ui : List Char) : List Char :=
  let rest := ui.drop 2
  let mode :=
    if (str "sharp").isPrefixOf rest then replaceOcc (str "sharp") [] rest
    else if (str "flat").isPrefixOf rest then replaceOcc (str "flat") [] rest
    else rest
  pyStrip mode

/-- Lines 141-143: a mode text containing `"minor"` but none of
`"harmonic"`, `"melodic"`, `"natural"` becomes `"harmonic minor"`. -/
def minorRewrite (mode : List Char) : List Char :=
  if containsSub (str "minor") mode && !containsSub (str "harmonic") mode
      && !containsSub (str "melodic") mode && !containsSub (str "natural") mode
  then str "harmonic minor" else mode

/-- The full mode text extracted by the Interpreter (lines 129-143). -/
def extract_mode (ui : List Char) : List Char := minorRewrite (extract_mode_pre ui)

/-- `validate_user_input` (lines 74-151): normalize whitespace, check the
root pattern, reject ambiguous accidentals, extract root / modifier / mode,
and check the mode against the mode-definition table.  `none` models the
Python `False` return. -/
def validate_user_input (mode_definitions : Table) (user_input : List Char) :
    Option (List (List Char)) :=
  let ui := normalize_ws user_input
  if rootPatternOk ui then
    if dupModifier ui then none
    else
      let mode := extract_mode ui
      if (List.lookup mode mode_definitions).isSome then
        some [ui.take 1, extract_modifier ui, mode]
      else none
  else none

/-- Python `str.title()`: the first alphabetic character of each maximal
alphabetic run is uppercased, the rest are lowercased.  The `Bool` is true
at the start of a run. -/
def pyTitleAux : Bool → List Char → List Char
  | _, [] => []
  | start, c :: rest =>
    if c.isAlpha then
      (if start then c.toUpper else c.toLower) :: pyTitleAux false rest
    else c :: pyTitleAux true rest

/-- Python `str.title()`. -/
def pyTitle (l : List Char) : List Char := pyTitleAux true l

/-- `get_user_friendly_result` (lines 310-329): substitute the accidental
word by its symbol (`" sharp"` → `"#"` or `" flat"` → `"b"`), expand a lone
`"minor"` to `"harmonic minor"`, title-case, and append the formatted
scale after `": "`. -/
def get_user_friendly_result (scale : List Char) (scale_name : List Char) :
    List Char :=
  let n1 :=
    if containsSub (str " sharp") scale_name then
      replaceOcc (str " sharp") (str "#") scale_name
    else if containsSub (str " flat") scale_name then
      replaceOcc (str " flat") (str "b") scale_name
    else scale_name
  let n2 :=
    if containsSub (str "minor") n1 && !containsSub (str "harmonic") n1
        && !containsSub (str "melodic") n1 && !containsSub (str "natural") n1
    then replaceOcc (str "minor") (str "harmonic minor") n1
    else n1
  pyTitle n2 ++ str ": " ++ scale

/-- Modelled from the spec: the `definitions` module holding the two reference
tables is not under `src/`.  The harmonic-minor degree pattern relative to the
Major mode — degrees 1, 2, flat 3, 4, 5, flat 6, 7 — as described in spec §3
and §4.2 and exercised by the repository's tests. -/
def hmDef : List (List Char) :=
  [str "1", str "2", str "3-", str "4", str "5", str "6-", str "7"]

/-- Modelled from the spec: the Major mode's degree pattern (all seven degrees
unmodified), from the missing `definitions.mode_definitions`. -/
def majorDef : List (List Char) :=
  [str "1", str "2", str "3", str "4", str "5", str "6", str "7"]

/-- Modelled from the spec: the standard A#-major scale entry of the missing
`definitions.majors` table (spec §8's double-sharp example; `c++` and the
following entries are the internal spellings of C##, F##, G##). -/
def asMajor : List (List Char) :=
  [str "a+", str "b+", str "c++", str "d+", str "e+", str "f++", str "g++"]

/-- Modelled from the spec: the standard Eb-major scale entry of the missing
`definitions.majors` table (spec §8's `"e flat minor"` end-to-end example). -/
def ebMajor : List (List Char) :=
  [str "e-", str "f", str "g", str "a-", str "b-", str "c", str "d"]

/-- Modelled from the spec: the standard C-major scale entry of the missing
`definitions.majors` table (spec §8's round-trip example). -/
def cMajor : List (List Char) :=
  [str "c", str "d", str "e", str "f", str "g", str "a", str "b"]

/-- Modelled from the spec: a mode-definition table fragment holding the keys
needed by the concrete witnesses (`"major"` and `"harmonic minor"` are both
valid mode keys per spec §6 and the repository's tests). -/
def defsEx : Table := [(str "major", majorDef), (str "harmonic minor", hmDef)]

/-- Modelled from the spec: a major-scale table fragment holding the roots
needed by the concrete witnesses. -/
def majorsEx : Table := [(str "a+", asMajor), (str "e-", ebMajor), (str "c", cMajor)]

/-- Claim C1: for the request `['a', '+', 'harmonic minor']`, deriving the
scale and formatting it yields exactly `"A#, B#, C#, D#, E#, F#, G##, A#"`,
under the hypothesis that the reference tables contain the standard A#-major
scale entry and the standard harmonic-minor degree pattern; in particular the
seventh note accumulates a double sharp. -/
theorem spec_C1 (majors defs : Table)
    (h1 : List.lookup (str "a+") majors = some asMajor)
    (h2 : List.lookup (str "harmonic minor") defs = some hmDef) :
    create_scale majors defs [str "a", str "+", str "harmonic minor"]
      = some (str "A#, B#, C#, D#, E#, F#, G##, A#") := by
  have e : create_scale majors defs [str "a", str "+", str "harmonic minor"]
      = Option.map prep_scale_for_display
          ((List.lookup (str "harmonic minor") defs).bind fun md =>
            (List.lookup (str "a+") majors).bind fun major_scale =>
              (mapOpt (derive_entry major_scale) md).bind fun scale =>
                scale.head?.bind fun first => some (scale ++ [first])) := rfl
  rw [e, h2, h1]
  decide

/-- Witness for C1: the table hypotheses hold for the modelled tables and the
conclusion evaluates. -/
theorem spec_C1_witness :
    create_scale majorsEx defsEx [str "a", str "+", str "harmonic minor"]
      = some (str "A#, B#, C#, D#, E#, F#, G##, A#") :=
  spec_C1 majorsEx defsEx (by decide) (by decide)

/-- Claim C6: any mode text containing the word `"minor"` but none of
`"harmonic"`, `"melodic"`, `"natural"` is rewritten to `"harmonic minor"` by
the Interpreter; in particular `validate_user_input "g minor"` returns
`['g', '', 'harmonic minor']` (for any mode table containing that key). -/
theorem spec_C6 :
    (∀ ui : List Char,
        containsSub (str "minor") (extract_mode_pre ui) = true →
        containsSub (str "harmonic") (extract_mode_pre ui) = false →
        containsSub (str "melodic") (extract_mode_pre ui) = false →
        containsSub (str "natural") (extract_mode_pre ui) = false →
        extract_mode ui = str "harmonic minor")
    ∧ ∀ defs : Table, (List.lookup (str "harmonic minor") defs).isSome = true →
        validate_user_input defs (str "g minor")
          = some [str "g", [], str "harmonic minor"] := by
  constructor
  · intro ui h1 h2 h3 h4
    unfold extract_mode minorRewrite
    rw [h1, h2, h3, h4]
    rfl
  · intro defs h
    have e : validate_user_input defs (str "g minor")
        = if (List.lookup (str "harmonic minor") defs).isSome = true
          then some [str "g", [], str "harmonic minor"] else none := rfl
    rw [e, h]
    simp

/-- Witness for C6: instantiating both parts at `"g minor"` with the modelled
mode table. -/
theorem spec_C6_witness :
    validate_user_input defsEx (str "g minor")
      = some [str "g", [], str "harmonic minor"] :=
  spec_C6.2 defsEx (by decide)

/-- Claim C7: the Interpreter returns Invalid for every input whose normalized
text contains more than one `"sharp"`, more than one `"flat"`, or the adjacent
substrings `"sharp flat"` / `"flat sharp"`; in particular
`"a flat sharp minor"` and `"f sharp sharp major"` are rejected (for any mode
table). -/
theorem spec_C7 :
    (∀ (defs : Table) (input : List Char),
        (1 < countOcc (str "sharp") (normalize_ws input)
          ∨ 1 < countOcc (str "flat") (normalize_ws input)
          ∨ 0 < countOcc (str "sharp flat") (normalize_ws input)
          ∨ 0 < countOcc (str "flat sharp") (normalize_ws input)) →
        validate_user_input defs input = none)
    ∧ ∀ defs : Table,
        validate_user_input defs (str "a flat sharp minor") = none
        ∧ validate_user_input defs (str "f sharp sharp major") = none := by
  constructor
  · intro defs input h
    have hd : dupModifier (normalize_ws input) = true := by
      unfold dupModifier
      simp only [Bool.or_eq_true, decide_eq_true_eq]
      tauto
    simp only [validate_user_input]
    by_cases hr : rootPatternOk (normalize_ws input) = true
    · rw [if_pos hr, if_pos hd]
    · rw [if_neg hr]
  · intro defs
    exact ⟨rfl, rfl⟩

/-- Witness for C7: a concrete doubled-accidental input is rejected through
the universally quantified part. -/
theorem spec_C7_witness :
    validate_user_input defsEx (str "b sharp sharp dorian") = none :=
  spec_C7.1 defsEx (str "b sharp sharp dorian") (Or.inl (by decide))

/-- A string with no accidental marks. -/
def NoMarks (l : List Char) : Prop := '+' ∉ l ∧ '-' ∉ l

/-- A well-formed internal note: mark-free characters followed by a trailing
run of accidental marks all of one direction. -/
def WfNote (note : List Char) : Prop :=
  ∃ base n, NoMarks base
    ∧ (note = base ++ List.replicate n '+' ∨ note = base ++ List.replicate n '-')

/-- A note string whose marks are all of one direction (or absent): it does
not contain both kinds of mark. -/
def OneDir (note : List Char) : Prop := '+' ∉ note ∨ '-' ∉ note

lemma contains_eq_false {l : List Char} {c : Char} (h : c ∉ l) :
    l.contains c = false := by
  simp [List.contains, h]

lemma raise_note_one (note : List Char) :
    raise_note note 1
      = if note.contains '-' then note.dropLast else note ++ ['+'] := rfl

lemma lower_note_one (note : List Char) :
    lower_note note 1
      = if note.contains '+' then note.dropLast else note ++ ['-'] := rfl

/-- Raising a note with no lower mark appends a raise mark, which the
following lowering trims again. -/
lemma raise_lower_of_no_lower (note : List Char) (h : '-' ∉ note) :
    lower_note (raise_note note 1) 1 = note := by
  rw [raise_note_one, contains_eq_false h]
  simp only [Bool.false_eq_true, if_false, lower_note_one]
  have hc : (note ++ ['+']).contains '+' = true := by simp
  rw [hc]
  simp

/-- Lowering a note with no raise mark appends a lower mark, which the
following raising trims again. -/
lemma lower_raise_of_no_raise (note : List Char) (h : '+' ∉ note) :
    raise_note (lower_note note 1) 1 = note := by
  rw [lower_note_one, contains_eq_false h]
  simp only [Bool.false_eq_true, if_false, raise_note_one]
  have hc : (note ++ ['-']).contains '-' = true := by simp
  rw [hc]
  simp

/-- Claim C2 (counterexample): for the note string `"a-b"` — whose single
lower mark is not in trailing position — raising one semitone then lowering
one semitone does not return the original note (`raise_note` trims the final
`'b'`, and `lower_note` then appends a `'-'`, yielding `"a--"`). -/
theorem spec_C2_cex :
    ¬(lower_note (raise_note (str "a-b") 1) 1 = str "a-b"
      ∧ raise_note (lower_note (str "a-b") 1) 1 = str "a-b") := by
  decide

/-- Claim C2 (amended): for every well-formed note — mark-free characters
followed by a trailing run of marks all of one direction — applying
`raise_note` by one semitone then `lower_note` by one semitone returns the
original note unchanged, and symmetrically for `lower_note` then
`raise_note`. -/
theorem spec_C2 (note : List Char) (h : WfNote note) :
    lower_note (raise_note note 1) 1 = note
    ∧ raise_note (lower_note note 1) 1 = note := by
  obtain ⟨base, n, ⟨hbp, hbm⟩, hcase | hcase⟩ := h <;> subst hcase
  · constructor
    · apply raise_lower_of_no_lower
      simp [hbm, List.mem_replicate]
    · cases n with
      | zero =>
        simp only [List.replicate, List.append_nil]
        exact lower_raise_of_no_raise base hbp
      | succ m =>
        rw [List.replicate_succ', ← List.append_assoc, lower_note_one]
        have hc : ((base ++ List.replicate m '+') ++ ['+']).contains '+' = true := by
          simp
        rw [hc]
        simp only [if_true, List.dropLast_concat, raise_note_one]
        have hc2 : (base ++ List.replicate m '+').contains '-' = false :=
          contains_eq_false (by simp [hbm, List.mem_replicate])
        rw [hc2]
        simp
  · constructor
    · cases n with
      | zero =>
        simp only [List.replicate, List.append_nil]
        exact raise_lower_of_no_lower base hbm
      | succ m =>
        rw [List.replicate_succ', ← List.append_assoc, raise_note_one]
        have hc : ((base ++ List.replicate m '-') ++ ['-']).contains '-' = true := by
          simp
        rw [hc]
        simp only [if_true, List.dropLast_concat, lower_note_one]
        have hc2 : (base ++ List.replicate m '-').contains '+' = false :=
          contains_eq_false (by simp [hbp, List.mem_replicate])
        rw [hc2]
        simp
    · apply lower_raise_of_no_raise
      simp [hbp, List.mem_replicate]

/-- Witness for C2: the double-sharped note `"g++"` round-trips both ways. -/
theorem spec_C2_witness :
    lower_note (raise_note (str "g++") 1) 1 = str "g++"
    ∧ raise_note (lower_note (str "g++") 1) 1 = str "g++" :=
  spec_C2 (str "g++") ⟨str "g", 2, ⟨by decide, by decide⟩, Or.inl (by decide)⟩

/-- One raising step keeps the marks single-direction. -/
lemma oneDir_raise (note : List Char) (h : OneDir note) (n : Nat) :
    OneDir (raise_note note n) := by
  induction n generalizing note with
  | zero => exact h
  | succ m ih =>
    show OneDir (raise_note (if note.contains '-' then note.dropLast
      else note ++ ['+']) m)
    apply ih
    by_cases hc : note.contains '-' = true
    · rw [if_pos hc]
      rcases h with h' | h'
      · exact Or.inl fun hm => h' ((List.dropLast_sublist note).subset hm)
      · exact Or.inr fun hm => h' ((List.dropLast_sublist note).subset hm)
    · rw [if_neg hc]
      refine Or.inr ?_
      have hn : '-' ∉ note := by
        intro hm
        exact hc (by simp [List.contains, hm])
      simp [hn]

/-- One lowering step keeps the marks single-direction. -/
lemma oneDir_lower (note : List Char) (h : OneDir note) (n : Nat) :
    OneDir (lower_note note n) := by
  induction n generalizing note with
  | zero => exact h
  | succ m ih =>
    show OneDir (lower_note (if note.contains '+' then note.dropLast
      else note ++ ['-']) m)
    apply ih
    by_cases hc : note.contains '+' = true
    · rw [if_pos hc]
      rcases h with h' | h'
      · exact Or.inl fun hm => h' ((List.dropLast_sublist note).subset hm)
      · exact Or.inr fun hm => h' ((List.dropLast_sublist note).subset hm)
    · rw [if_neg hc]
      refine Or.inl ?_
      have hn : '+' ∉ note := by
        intro hm
        exact hc (by simp [List.contains, hm])
      simp [hn]

/-- Claim C3: a note never simultaneously carries both raise and lower marks —
for every note string whose marks are all of one direction (or absent),
`raise_note`, `lower_note` (any number of semitones), and `modify_note` (any
non-`None` single-direction modifier) again produce marks of only one
direction. -/
theorem spec_C3 (note : List Char) (h : OneDir note) :
    (∀ n, OneDir (raise_note note n))
    ∧ (∀ n, OneDir (lower_note note n))
    ∧ (∀ m : List Char,
        m.all (fun c => c == '+') = true ∨ m.all (fun c => c == '-') = true →
        OneDir (modify_note note (some m))) := by
  refine ⟨fun n => oneDir_raise note h n, fun n => oneDir_lower note h n,
    fun m _ => ?_⟩
  show OneDir (if m.contains '+' then raise_note note m.length
    else if m.contains '-' then lower_note note m.length else [])
  by_cases h1 : m.contains '+' = true
  · rw [if_pos h1]
    exact oneDir_raise note h m.length
  · rw [if_neg h1]
    by_cases h2 : m.contains '-' = true
    · rw [if_pos h2]
      exact oneDir_lower note h m.length
    · rw [if_neg h2]
      exact Or.inl (by simp)

/-- Witness for C3: raising `"e-"` three semitones and double-sharping
`"b--"` both stay single-direction. -/
theorem spec_C3_witness :
    OneDir (raise_note (str "e-") 3)
    ∧ OneDir (modify_note (str "b--") (some (str "++"))) :=
  ⟨(spec_C3 (str "e-") (Or.inl (by decide))).1 3,
   (spec_C3 (str "b--") (Or.inl (by decide))).2.2 (str "++") (Or.inl (by decide))⟩

/-- Claim C4 (counterexample): for the input `"a sharp sharp major"` the
normalized text matches the root pattern and the extracted mode text
(`"major"`) is a key of the mode table, yet the Interpreter returns Invalid —
the duplicate-accidental check fires first, so success is not equivalent to
the mode text being a table key. -/
theorem spec_C4_cex :
    rootPatternOk (normalize_ws (str "a sharp sharp major")) = true
    ∧ extract_mode (normalize_ws (str "a sharp sharp major")) = str "major"
    ∧ (List.lookup (extract_mode (normalize_ws (str "a sharp sharp major")))
        defsEx).isSome = true
    ∧ validate_user_input defsEx (str "a sharp sharp major") = none := by
  decide

/-- Claim C4 (amended): for every input whose normalized form matches a letter
`a`-`g` followed by a whitespace character, the Interpreter returns a
non-error structured request if and only if the normalized text passes the
duplicate/adjacent-accidental check and the extracted mode text is a key of
the mode-definition table. -/
theorem spec_C4 (defs : Table) (input : List Char)
    (h : rootPatternOk (normalize_ws input) = true) :
    (validate_user_input defs input).isSome = true
      ↔ (dupModifier (normalize_ws input) = false
          ∧ (List.lookup (extract_mode (normalize_ws input)) defs).isSome = true) := by
  simp only [validate_user_input]
  rw [if_pos h]
  by_cases hd : dupModifier (normalize_ws input) = true
  · rw [if_pos hd]
    simp [hd]
  · rw [if_neg hd]
    have hd' : dupModifier (normalize_ws input) = false := by
      revert hd
      cases dupModifier (normalize_ws input) <;> simp
    by_cases hl : (List.lookup (extract_mode (normalize_ws input)) defs).isSome = true
    · rw [if_pos hl]
      simp [hd', hl]
    · rw [if_neg hl]
      simp [hd', hl]

/-- Witness for C4 (amended): instantiated at the valid input `"d major"`. -/
theorem spec_C4_witness :
    (validate_user_input defsEx (str "d major")).isSome = true
      ↔ (dupModifier (normalize_ws (str "d major")) = false
          ∧ (List.lookup (extract_mode (normalize_ws (str "d major")))
              defsEx).isSome = true) :=
  spec_C4 defsEx (str "d major") (by decide)

/-- `mapOpt` preserves length when it succeeds. -/
lemma mapOpt_length {α β : Type} (f : α → Option β) (l : List α) :
    ∀ bs, mapOpt f l = some bs → bs.length = l.length := by
  induction l with
  | nil =>
    intro bs h
    cases h
    rfl
  | cons a t ih =>
    intro bs h
    unfold mapOpt at h
    cases hfa : f a <;> rw [hfa] at h
    · cases h
    · cases hml : mapOpt f t <;> rw [hml] at h
      · cases h
      · cases h
        simp [ih _ hml]

/-- Claim C5: for every request the Engine succeeds on, the built scale has
length equal to the mode definition's length plus one, and its last note
equals its first note (octave closure: the first derived, post-modification
note is appended as-is). -/
theorem spec_C5 (majors defs : Table) (elems : List (List Char))
    (mode : List Char) (md : List (List Char)) (s : List (List Char))
    (h1 : elems.get? 2 = some mode)
    (h2 : List.lookup mode defs = some md)
    (h3 : build_scale majors defs elems = some s) :
    s.length = md.length + 1 ∧ s.getLast? = s.head? := by
  unfold build_scale at h3
  rw [h1, Option.some_bind, h2, Option.some_bind] at h3
  simp only [Option.bind_eq_some] at h3
  obtain ⟨ms, -, sc, hsc, f, hf, hs⟩ := h3
  cases hs
  have hlen : sc.length = md.length := mapOpt_length _ _ _ hsc
  cases sc with
  | nil => cases hf
  | cons x t =>
    cases hf
    constructor
    · simp at hlen
      simp [hlen]
    · rw [List.getLast?_concat]
      rfl

/-- Witness for C5: the C-major request built from the modelled tables. -/
theorem spec_C5_witness :
    (cMajor ++ [str "c"]).length = majorDef.length + 1
    ∧ (cMajor ++ [str "c"]).getLast? = (cMajor ++ [str "c"]).head? :=
  spec_C5 majorsEx defsEx [str "c", [], str "major"] (str "major") majorDef
    (cMajor ++ [str "c"]) (by decide) (by decide) (by decide)

/-- The extracted modifier is always one of `''`, `'+'`, `'-'`. -/
lemma extract_modifier_cases (ui : List Char) :
    extract_modifier ui = [] ∨ extract_modifier ui = ['+']
      ∨ extract_modifier ui = ['-'] := by
  simp only [extract_modifier]
  split
  · exact Or.inr (Or.inl rfl)
  · split
    · exact Or.inr (Or.inr rfl)
    · exact Or.inl rfl

/-- A string accepted by the root pattern starts with a letter `a`-`g`
followed by a whitespace character. -/
lemma rootPatternOk_shape (ui : List Char) (h : rootPatternOk ui = true) :
    ∃ c1 c2 tail, ui = c1 :: c2 :: tail ∧ 'a' ≤ c1 ∧ c1 ≤ 'g'
      ∧ isSpaceChar c2 = true := by
  cases ui with
  | nil => simp [rootPatternOk] at h
  | cons c1 rest =>
    cases rest with
    | nil => simp [rootPatternOk] at h
    | cons c2 tail =>
      simp only [rootPatternOk, Bool.and_eq_true, decide_eq_true_eq] at h
      exact ⟨c1, c2, tail, rfl, h.1.1, h.1.2, h.2⟩

/-- Claim C10: `validate_user_input` is total over arbitrary input strings
(the embedding returns `none` exactly where the Python code returns `False`;
no code path raises), and every successful result is a 3-element list
`[root, modifier, mode]` with the root a single letter `a`-`g`, the modifier
one of `''`, `'+'`, `'-'`, and the mode a key of the mode-definition table. -/
theorem spec_C10 (defs : Table) (input : List Char) (r : List (List Char))
    (h : validate_user_input defs input = some r) :
    ∃ c m mode, r = [[c], m, mode]
      ∧ 'a' ≤ c ∧ c ≤ 'g'
      ∧ (m = [] ∨ m = ['+'] ∨ m = ['-'])
      ∧ (List.lookup mode defs).isSome = true := by
  simp only [validate_user_input] at h
  by_cases hr : rootPatternOk (normalize_ws input) = true
  · rw [if_pos hr] at h
    by_cases hd : dupModifier (normalize_ws input) = true
    · rw [if_pos hd] at h
      cases h
    · rw [if_neg hd] at h
      by_cases hl : (List.lookup (extract_mode (normalize_ws input)) defs).isSome = true
      · rw [if_pos hl] at h
        cases h
        obtain ⟨c1, c2, tail, hshape, hb1, hb2, -⟩ := rootPatternOk_shape _ hr
        have hr1 : (normalize_ws input).take 1 = [c1] := by
          rw [hshape]
          rfl
        exact ⟨c1, extract_modifier (normalize_ws input),
          extract_mode (normalize_ws input), by rw [hr1], hb1, hb2,
          extract_modifier_cases _, hl⟩
      · rw [if_neg hl] at h
        cases h
  · rw [if_neg hr] at h
    cases h

/-- Witness for C10: the accepted input `"f sharp minor"`. -/
theorem spec_C10_witness :
    ∃ c m mode, [str "f", str "+", str "harmonic minor"] = [[c], m, mode]
      ∧ 'a' ≤ c ∧ c ≤ 'g'
      ∧ (m = [] ∨ m = ['+'] ∨ m = ['-'])
      ∧ (List.lookup mode defsEx).isSome = true :=
  spec_C10 defsEx (str "f sharp minor")
    [str "f", str "+", str "harmonic minor"] (by decide)

/-- Per-character display substitution following the spec's words (§4.3): a
lower mark becomes the flat symbol, a raise mark the sharp symbol, and
letters are uppercased, in accumulated order. -/
def fmtCharSpec (c : Char) : Char :=
  if c = '-' then 'b' else if c = '+' then '#' else c.toUpper

/-- Joining with a separator and no trailing separator, following the spec's
words (§4.3). -/
def joinSep (sep : List Char) : List (List Char) → List Char
  | [] => []
  | [x] => x
  | x :: y :: t => x ++ sep ++ joinSep sep (y :: t)

/-- The Formatter as the spec describes it: format each note character-wise
and join the notes with `", "`. -/
def format_spec (scale : List (List Char)) : List Char :=
  joinSep [',', ' '] (scale.map fun note => note.map fmtCharSpec)

/-- Internal notes consist of lowercase letters `a`-`g` and accidental
marks. -/
def NoteChars (note : List Char) : Prop :=
  ∀ c ∈ note, c = 'a' ∨ c = 'b' ∨ c = 'c' ∨ c = 'd' ∨ c = 'e' ∨ c = 'f'
    ∨ c = 'g' ∨ c = '+' ∨ c = '-'

instance (note : List Char) : Decidable (NoteChars note) :=
  List.decidableBAll _ note

instance (note : List Char) : Decidable (OneDir note) :=
  inferInstanceAs (Decidable ('+' ∉ note ∨ '-' ∉ note))

/-- `re.sub` with a single-character literal pattern is a character map. -/
lemma replaceOcc_single (c r : Char) (l : List Char) :
    replaceOcc [c] [r] l = l.map fun x => if x = c then r else x := by
  induction l with
  | nil => rfl
  | cons x t ih =>
    simp only [replaceOcc] at ih ⊢
    rw [replaceOccAux]
    by_cases hx : x = c
    · subst hx
      rw [if_pos ⟨List.cons_ne_nil x [], by simp [List.isPrefixOf]⟩]
      simp [ih]
    · have hpre : ([c].isPrefixOf (x :: t)) = false := by
        simp only [List.isPrefixOf, Bool.and_true]
        exact beq_eq_false_iff_ne.mpr fun h => hx h.symm
      rw [if_neg fun h => by rw [hpre] at h; exact absurd h.2 (by simp)]
      simp [ih, hx]

/-- On a single-direction internal note, the source's per-note formatting is
exactly the character map described by the spec. -/
lemma prep_note_spec (note : List Char) (hchars : NoteChars note)
    (hdir : OneDir note) :
    prep_note note = note.map fmtCharSpec := by
  simp only [prep_note]
  by_cases hm : '-' ∈ note
  · have hplus : '+' ∉ note := by
      rcases hdir with h | h
      · exact h
      · exact absurd hm h
    have hc : (note.map Char.toUpper).contains '-' = true := by
      simp only [List.contains, List.elem_eq_mem, decide_eq_true_eq, List.mem_map]
      exact ⟨'-', hm, by decide⟩
    rw [hc]
    simp only [if_true]
    rw [replaceOcc_single, List.map_map]
    apply List.map_congr_left
    intro a ha
    rcases hchars a ha with h|h|h|h|h|h|h|h|h <;> subst h <;>
      first
      | decide
      | exact absurd ha hplus
  · have hc1 : (note.map Char.toUpper).contains '-' = false := by
      apply contains_eq_false
      intro hmem
      rw [List.mem_map] at hmem
      obtain ⟨a, ha, hEq⟩ := hmem
      rcases hchars a ha with h|h|h|h|h|h|h|h|h <;> subst h <;>
        first
        | exact absurd hEq (by decide)
        | exact hm ha
    rw [hc1]
    simp only [Bool.false_eq_true, if_false]
    by_cases hp : '+' ∈ note
    · have hc2 : note.contains '+' = true := by
        simp [List.contains, hp]
      rw [hc2]
      simp only [if_true]
      rw [replaceOcc_single, List.map_map]
      apply List.map_congr_left
      intro a ha
      rcases hchars a ha with h|h|h|h|h|h|h|h|h <;> subst h <;>
        first
        | decide
        | exact absurd ha hm
    · have hc2 : note.contains '+' = false := contains_eq_false hp
      rw [hc2]
      simp only [Bool.false_eq_true, if_false]
      apply List.map_congr_left
      intro a ha
      rcases hchars a ha with h|h|h|h|h|h|h|h|h <;> subst h <;>
        first
        | decide
        | exact absurd ha hm
        | exact absurd ha hp

/-- Cutting the trailing `", "` from the flattened decorated notes equals the
separator join with no trailing separator. -/
lemma take_flatten_sep (g : List Char → List Char) :
    ∀ l : List (List Char),
      ((l.map fun note => g note ++ [',', ' ']).flatten).take
          (((l.map fun note => g note ++ [',', ' ']).flatten).length - 2)
        = joinSep [',', ' '] (l.map g)
  | [] => rfl
  | [x] => by
    simp only [List.map_cons, List.map_nil, List.flatten, List.append_nil,
      List.length_append, joinSep]
    rw [show (g x).length + ([',', ' '] : List Char).length - 2 = (g x).length + 0
      by simp]
    rw [List.take_append]
    simp
  | x :: y :: t => by
    have ih := take_flatten_sep g (y :: t)
    have hflat : ((x :: y :: t).map fun note => g note ++ [',', ' ']).flatten
        = (g x ++ [',', ' '])
          ++ ((y :: t).map fun note => g note ++ [',', ' ']).flatten := by
      simp
    have hrest : 2 ≤ (((y :: t).map fun note => g note ++ [',', ' ']).flatten).length := by
      simp only [List.map_cons, List.flatten_cons, List.length_append,
        List.length_cons, List.length_nil]
      omega
    rw [hflat]
    rw [show ((g x ++ [',', ' '])
          ++ ((y :: t).map fun note => g note ++ [',', ' ']).flatten).length - 2
        = (g x ++ [',', ' ']).length
          + ((((y :: t).map fun note => g note ++ [',', ' ']).flatten).length - 2) by
      simp only [List.length_append]
      omega]
    rw [List.take_append, ih]
    simp only [List.map_cons, joinSep, List.append_assoc]

/-- Claim C8: for every scale of internal single-direction notes, the
Formatter uppercases each letter, turns each `'-'` into `'b'` and each `'+'`
into `'#'` in accumulated order, and joins the notes with `", "` and no
trailing separator — i.e. it agrees with the spec-side `format_spec`. -/
theorem spec_C8 (scale : List (List Char))
    (h : ∀ note ∈ scale, NoteChars note ∧ OneDir note) :
    prep_scale_for_display scale = format_spec scale := by
  simp only [prep_scale_for_display, format_spec]
  have hmap : scale.map (fun note => prep_note note ++ [',', ' '])
      = scale.map fun note => note.map fmtCharSpec ++ [',', ' '] := by
    apply List.map_congr_left
    intro note hnote
    rw [prep_note_spec note (h note hnote).1 (h note hnote).2]
  rw [hmap]
  exact take_flatten_sep (fun note => note.map fmtCharSpec) scale

/-- Witness for C8: the G#-major display scale from the repository's tests. -/
theorem spec_C8_witness :
    prep_scale_for_display
        [str "g+", str "a+", str "b+", str "c+", str "d+", str "e+",
          str "f++", str "g+"]
      = format_spec
          [str "g+", str "a+", str "b+", str "c+", str "d+", str "e+",
            str "f++", str "g+"] :=
  spec_C8 _ (by decide)

/-- Claim C9: title construction replaces the accidental word with its symbol,
expands a lone `"minor"` to `"harmonic minor"`, title-cases, and prefixes the
formatted scale after `": "`; end-to-end, the request `"e flat minor"`
displays `"Eb Harmonic Minor: Eb, F, Gb, Ab, Bb, Cb, D, Eb"`, given the
standard reference-table entries. -/
theorem spec_C9 (majors defs : Table)
    (h1 : List.lookup (str "e-") majors = some ebMajor)
    (h2 : List.lookup (str "harmonic minor") defs = some hmDef) :
    validate_user_input defs (str "e flat minor")
      = some [str "e", str "-", str "harmonic minor"]
    ∧ create_scale majors defs [str "e", str "-", str "harmonic minor"]
      = some (str "Eb, F, Gb, Ab, Bb, Cb, D, Eb")
    ∧ get_user_friendly_result (str "Eb, F, Gb, Ab, Bb, Cb, D, Eb")
        (str "e flat minor")
      = str "Eb Harmonic Minor: Eb, F, Gb, Ab, Bb, Cb, D, Eb" := by
  refine ⟨?_, ?_, by decide⟩
  · have e : validate_user_input defs (str "e flat minor")
        = if (List.lookup (str "harmonic minor") defs).isSome = true
          then some [str "e", str "-", str "harmonic minor"] else none := rfl
    rw [e, h2]
    simp
  · have e : create_scale majors defs [str "e", str "-", str "harmonic minor"]
        = Option.map prep_scale_for_display
            ((List.lookup (str "harmonic minor") defs).bind fun md =>
              (List.lookup (str "e-") majors).bind fun major_scale =>
                (mapOpt (derive_entry major_scale) md).bind fun scale =>
                  scale.head?.bind fun first => some (scale ++ [first])) := rfl
    rw [e, h2, h1]
    decide

/-- Witness for C9: the end-to-end `"e flat minor"` example over the modelled
tables. -/
theorem spec_C9_witness :
    validate_user_input defsEx (str "e flat minor")
      = some [str "e", str "-", str "harmonic minor"]
    ∧ create_scale majorsEx defsEx [str "e", str "-", str "harmonic minor"]
      = some (str "Eb, F, Gb, Ab, Bb, Cb, D, Eb")
    ∧ get_user_friendly_result (str "Eb, F, Gb, Ab, Bb, Cb, D, Eb")
        (str "e flat minor")
      = str "Eb Harmonic Minor: Eb, F, Gb, Ab, Bb, Cb, D, Eb" :=
  spec_C9 majorsEx defsEx (by decide) (by decide)

end ScaleBuilder
